import Mathlib

/-!
Shallow embedding of the kine generic SQL driver
(pkg/kine/drivers/generic/generic.go): the revision-log row model, the
Create/Update/Delete INSERT-SELECT statements, the compaction pass, the
retry loops of query/execute/Compact, the prefix-range helper, the watch
query timeout, and the Open startup loop.
-/

namespace KineSpec

/-- Go strings are byte slices; they are modelled as lists of characters. -/
abbrev Str := List Char

/-- Byte strings (value payloads) are modelled as lists of bytes. -/
abbrev Bytes := List Nat

/-- One row of the kine table (the columns of the INSERT statements in
generic.go). -/
structure Row where
  id : Int
  name : Str
  created : Bool
  deleted : Bool
  create_revision : Int
  prev_revision : Int
  lease : Int
  value : Option Bytes
  old_value : Option Bytes
deriving DecidableEq, Repr

/-- The kine table: a list of rows, in insertion order. -/
abbrev DB := List Row

/-- The name of the sentinel marker row holding the compact watermark. -/
def compactRevKey : Str := "compact_rev_key".toList

/-- Rows of the table belonging to a key (SQL WHERE name = key). -/
def keyRows (db : DB) (key : Str) : List Row :=
  db.filter (fun r => r.name == key)

/-- SELECT MAX(id) over a list of rows: none models SQL NULL on an empty
set. -/
def maxIdOpt : List Row → Option Int
  | [] => none
  | r :: rest =>
    match maxIdOpt rest with
    | none => some r.id
    | some m => some (max r.id m)

/-- SELECT MAX(prev_revision) over a list of rows, NULL as none. -/
def maxPrevOpt : List Row → Option Int
  | [] => none
  | r :: rest =>
    match maxPrevOpt rest with
    | none => some r.prev_revision
    | some m => some (max r.prev_revision m)

/-- The row of a key achieving MAX(id): the row the aggregate subqueries of
CreateSQL, UpdateSQL and DeleteSQL resolve to (ids are unique, being the
primary key). -/
def latestRow (db : DB) (key : Str) : Option Row :=
  (keyRows db key).foldl
    (fun acc r =>
      match acc with
      | none => some r
      | some m => if m.id < r.id then some r else some m)
    none

/-- Current revision: MAX(id) over the whole table, 0 when NULL
(sql.NullInt64 semantics of revisionIntervalSQL). -/
def currentRevOf (db : DB) : Int :=
  (maxIdOpt db).getD 0

/-- Compact revision: MAX(prev_revision) of the rows named
compact_rev_key, 0 when NULL (revisionIntervalSQL). -/
def compactRevOf (db : DB) : Int :=
  (maxPrevOpt (db.filter (fun r => r.name == compactRevKey))).getD 0

/-- The id the SQL engine assigns to a freshly inserted row: one past the
maximum id in the table. -/
def nextId (db : DB) : Int :=
  currentRevOf db + 1

/-- CreateSQL: the row inserted by the Create statement, none when the
WHERE clause (maxkv.deleted = 1 OR id IS NULL) rejects the insert. Field
values follow the SELECT list of CreateSQL: created = 1, deleted = 0,
create_revision = 0, prev_revision = COALESCE(MAX(id), 0). -/
def createRow (db : DB) (key : Str) (value : Bytes) (ttl : Int) : Option Row :=
  match latestRow db key with
  | none =>
    some { id := nextId db, name := key, created := true, deleted := false,
           create_revision := 0, prev_revision := 0, lease := ttl,
           value := some value, old_value := none }
  | some prev =>
    if prev.deleted then
      some { id := nextId db, name := key, created := true, deleted := false,
             create_revision := 0, prev_revision := prev.id, lease := ttl,
             value := some value, old_value := none }
    else none

/-- UpdateSQL: the row inserted by the Update statement, none when the CAS
predicate (id = MAX(id) for the key AND deleted = 0 AND id = preRev)
rejects the insert. create_revision is carried forward: the previous row's
id when that row was created, else its create_revision. -/
def updateRow (db : DB) (key : Str) (value : Bytes) (ttl preRev : Int) : Option Row :=
  match latestRow db key with
  | none => none
  | some prev =>
    if !prev.deleted && (prev.id == preRev) then
      some { id := nextId db, name := key, created := false, deleted := false,
             create_revision := if prev.created then prev.id else prev.create_revision,
             prev_revision := prev.id, lease := ttl,
             value := some value, old_value := prev.value }
    else none

/-- DeleteSQL: the tombstone row inserted by the Delete statement, none on
CAS miss. value is NULL, old_value the superseded value, lease carried. -/
def deleteRow (db : DB) (key : Str) (revision : Int) : Option Row :=
  match latestRow db key with
  | none => none
  | some prev =>
    if !prev.deleted && (prev.id == revision) then
      some { id := nextId db, name := key, created := false, deleted := true,
             create_revision := if prev.created then prev.id else prev.create_revision,
             prev_revision := prev.id, lease := prev.lease,
             value := none, old_value := prev.value }
    else none

/-- Result of a driver write operation: the table afterwards, the returned
revision, the ok flag, and the returned error (none = nil). -/
structure OpResult (E : Type) where
  db : DB
  rev : Int
  ok : Bool
  err : Option E
deriving DecidableEq

/-- TranslateErr application: the deferred error hook of Create and Update
applies the mapping only when it is set. -/
def applyTranslate {E : Type} (t : Option (E → E)) (e : E) : E :=
  match t with
  | some f => f e
  | none => e

/-- Generic.Create: executes CreateSQL; a driver fault is translated (the
deferred TranslateErr hook) and returned with (0, false); zero rows
affected returns (0, false, nil); otherwise the new row's id with true. -/
def Create {E : Type} (t : Option (E → E)) (fault : Option E) (db : DB)
    (key : Str) (value : Bytes) (ttl : Int) : OpResult E :=
  match fault with
  | some e => { db := db, rev := 0, ok := false, err := some (applyTranslate t e) }
  | none =>
    match createRow db key value ttl with
    | none => { db := db, rev := 0, ok := false, err := none }
    | some r => { db := db ++ [r], rev := r.id, ok := true, err := none }

/-- Generic.Update: executes UpdateSQL; errors pass through the deferred
TranslateErr hook exactly as in Create. -/
def Update {E : Type} (t : Option (E → E)) (fault : Option E) (db : DB)
    (key : Str) (value : Bytes) (ttl preRev : Int) : OpResult E :=
  match fault with
  | some e => { db := db, rev := 0, ok := false, err := some (applyTranslate t e) }
  | none =>
    match updateRow db key value ttl preRev with
    | none => { db := db, rev := 0, ok := false, err := none }
    | some r => { db := db ++ [r], rev := r.id, ok := true, err := none }

/-- Generic.Delete: executes DeleteSQL; its deferred function only records
the error on the span: the driver error is returned untranslated, so the
TranslateErr argument is ignored. -/
def Delete {E : Type} (_t : Option (E → E)) (fault : Option E) (db : DB)
    (key : Str) (revision : Int) : OpResult E :=
  match fault with
  | some e => { db := db, rev := 0, ok := false, err := some e }
  | none =>
    match deleteRow db key revision with
    | none => { db := db, rev := 0, ok := false, err := none }
    | some r => { db := db ++ [r], rev := r.id, ok := true, err := none }

/-- Create succeeds iff the key has no row at all or its latest row is a
tombstone (the WHERE clause of CreateSQL). -/
def keyFreeOrTombstone (db : DB) (key : Str) : Bool :=
  match latestRow db key with
  | none => true
  | some r => r.deleted

/-- The CAS predicate of UpdateSQL and DeleteSQL: the key's latest row is
live and its id equals the expected previous revision. -/
def casMatch (db : DB) (key : Str) (preRev : Int) : Bool :=
  match latestRow db key with
  | none => false
  | some r => !r.deleted && (r.id == preRev)

/-- getPrefixRange from generic.go: start is the prefix itself; the end of
the range replaces a trailing slash by the next ASCII character, otherwise
appends byte 0x01. -/
def getPrefixRange (pfx : Str) : Str × Str :=
  if ['/'].isSuffixOf pfx then (pfx, pfx.dropLast ++ ['0'])
  else (pfx, pfx ++ ['\x01'])

/-- Nanoseconds per second: time.Second. -/
def nsPerSecond : Int := 1000000000

/-- Generic.GetWatchQueryTimeout: the configured value when it is at least
five seconds, else the twenty second default. Durations are int64
nanoseconds. -/
def GetWatchQueryTimeout (watchQueryTimeout : Int) : Int :=
  if watchQueryTimeout ≥ 5 * nsPerSecond then watchQueryTimeout
  else 20 * nsPerSecond

/-! Theorems for the claims about the write primitives. -/

/-- C1: a Create call that returns without a driver error appends exactly
one row with created = 1 and deleted = 0 if and only if the key has no row
or its latest row is a tombstone, returning the new row's id with
succeeded = true; when the key's latest row is live it appends nothing and
returns succeeded = false. -/
theorem create_insert_iff_free_or_tombstone {E : Type} (t : Option (E → E))
    (db : DB) (key : Str) (v : Bytes) (ttl : Int) :
    (keyFreeOrTombstone db key = true →
      (Create t none db key v ttl).db.length = db.length + 1 ∧
      (Create t none db key v ttl).db.take db.length = db ∧
      ((Create t none db key v ttl).db.getLast?).map (fun r => (r.created, r.deleted, r.id)) =
        some (true, false, (Create t none db key v ttl).rev) ∧
      (Create t none db key v ttl).ok = true ∧
      (Create t none db key v ttl).err = none) ∧
    (keyFreeOrTombstone db key = false →
      (Create t none db key v ttl).db = db ∧
      (Create t none db key v ttl).rev = 0 ∧
      (Create t none db key v ttl).ok = false ∧
      (Create t none db key v ttl).err = none) := by
  constructor
  · intro hfree
    unfold keyFreeOrTombstone at hfree
    cases h : latestRow db key with
    | none =>
      simp [Create, createRow, h, List.take_left, List.getLast?_concat]
    | some prev =>
      rw [h] at hfree
      have hd : prev.deleted = true := hfree
      simp [Create, createRow, h, hd, List.take_left, List.getLast?_concat]
  · intro hlive
    unfold keyFreeOrTombstone at hlive
    cases h : latestRow db key with
    | none => rw [h] at hlive; cases hlive
    | some prev =>
      rw [h] at hlive
      have hd : prev.deleted = false := hlive
      simp [Create, createRow, h, hd]

/-- C1 witness: creating a key in the empty table inserts and succeeds. -/
theorem create_insert_iff_free_or_tombstone_witness :
    keyFreeOrTombstone [] ("foo".toList) = true ∧
    (Create (E := Nat) none none [] ("foo".toList) [49] 0).ok = true :=
  ⟨by decide,
   ((create_insert_iff_free_or_tombstone (E := Nat) none [] ("foo".toList) [49] 0).1
     (by decide)).2.2.2.1⟩

/-- C2: a CAS miss is never an error: Create on a live key, and Update or
Delete whose expected previous revision does not match the key's current
live row, leave the table unchanged and return (0, false, nil). -/
theorem cas_miss_returns_ok_false_nil {E : Type} (t : Option (E → E))
    (db : DB) (key : Str) (v : Bytes) (ttl preRev : Int) :
    (keyFreeOrTombstone db key = false →
      Create t none db key v ttl = ⟨db, 0, false, none⟩) ∧
    (casMatch db key preRev = false →
      Update t none db key v ttl preRev = ⟨db, 0, false, none⟩ ∧
      Delete t none db key preRev = ⟨db, 0, false, none⟩) := by
  constructor
  · intro hlive
    unfold keyFreeOrTombstone at hlive
    cases h : latestRow db key with
    | none => rw [h] at hlive; cases hlive
    | some prev =>
      rw [h] at hlive
      have hd : prev.deleted = false := hlive
      simp [Create, createRow, h, hd]
  · intro hmiss
    unfold casMatch at hmiss
    cases h : latestRow db key with
    | none => constructor <;> simp [Update, updateRow, Delete, deleteRow, h]
    | some prev =>
      rw [h] at hmiss
      have hb : (!prev.deleted && (prev.id == preRev)) = false := hmiss
      cases hdel : prev.deleted with
      | true => constructor <;> simp [Update, updateRow, Delete, deleteRow, h, hdel]
      | false =>
        have hne : prev.id ≠ preRev := by
          intro he
          rw [hdel, he] at hb
          simp at hb
        constructor <;> simp [Update, updateRow, Delete, deleteRow, h, hdel, hne]

/-- C2 witness: against a table whose only row for the key is live with
id 1, Create misses, and Update and Delete with expected revision 7
miss, all returning (0, false, nil). -/
theorem cas_miss_returns_ok_false_nil_witness :
    keyFreeOrTombstone [⟨1, "foo".toList, true, false, 0, 0, 0, some [49], none⟩]
      ("foo".toList) = false ∧
    Update (E := Nat) none none [⟨1, "foo".toList, true, false, 0, 0, 0, some [49], none⟩]
      ("foo".toList) [50] 0 7 =
      ⟨[⟨1, "foo".toList, true, false, 0, 0, 0, some [49], none⟩], 0, false, none⟩ :=
  ⟨by decide,
   ((cas_miss_returns_ok_false_nil (E := Nat) none
      [⟨1, "foo".toList, true, false, 0, 0, 0, some [49], none⟩]
      ("foo".toList) [50] 0 7).2 (by decide)).1⟩

/-! Theorems for getPrefixRange and the watch query timeout. -/

/-- C6: getPrefixRange returns start = P; when P ends with a slash the end
is P with its last character replaced by the character 0, otherwise the
end is P followed by byte 0x01; the slash prefix maps to the range from
slash to 0 and the prefix a to the range from a to a followed by 0x01. -/
theorem getPrefixRange_spec (p : Str) :
    (getPrefixRange p).1 = p ∧
    (['/'].isSuffixOf p = true → (getPrefixRange p).2 = p.dropLast ++ ['0']) ∧
    (['/'].isSuffixOf p = false → (getPrefixRange p).2 = p ++ ['\x01']) ∧
    getPrefixRange ['/'] = (['/'], ['0']) ∧
    getPrefixRange ['a'] = (['a'], ['a', '\x01']) := by
  refine ⟨?_, ?_, ?_, by decide, by decide⟩
  · by_cases h : ['/'].isSuffixOf p <;> simp [getPrefixRange, h]
  · intro h; simp [getPrefixRange, h]
  · intro h; simp [getPrefixRange, h]

/-- C6 witness: the prefix a/ ends with a slash and maps to the range
from a/ to a0. -/
theorem getPrefixRange_spec_witness :
    ['/'].isSuffixOf ['a', '/'] = true ∧
    (getPrefixRange ['a', '/']).2 = (['a', '/'] : Str).dropLast ++ ['0'] :=
  ⟨by decide, (getPrefixRange_spec ['a', '/']).2.1 (by decide)⟩

/-- C8: the effective watch query timeout is the configured value when
that is at least five seconds, the twenty second default when the
configuration is zero, and in every case at least five seconds. -/
theorem getWatchQueryTimeout_spec (v : Int) :
    5 * nsPerSecond ≤ GetWatchQueryTimeout v ∧
    (5 * nsPerSecond ≤ v → GetWatchQueryTimeout v = v) ∧
    (v = 0 → GetWatchQueryTimeout v = 20 * nsPerSecond) ∧
    (GetWatchQueryTimeout v = v ∨ GetWatchQueryTimeout v = 20 * nsPerSecond) := by
  by_cases h : v ≥ 5 * nsPerSecond <;>
    simp only [GetWatchQueryTimeout, h, if_true, if_false, nsPerSecond] at h ⊢ <;>
    refine ⟨by omega, by omega, by omega, by omega⟩

/-- C8 witness: a configured seven second timeout is returned unchanged. -/
theorem getWatchQueryTimeout_spec_witness :
    5 * nsPerSecond ≤ (7000000000 : Int) ∧
    GetWatchQueryTimeout 7000000000 = 7000000000 :=
  ⟨by norm_num [nsPerSecond],
   (getWatchQueryTimeout_spec 7000000000).2.1 (by norm_num [nsPerSecond])⟩

/-! Theorems about error translation and the re-create scenario. -/

/-- C10: Delete returns the driver error untouched even when a
TranslateErr mapping is configured, while Create and Update pass every
non-nil error through the mapping before returning it. -/
theorem delete_error_bypasses_translate {E : Type} (t : E → E) (u : Option (E → E))
    (db : DB) (key : Str) (v : Bytes) (ttl preRev rev : Int) (e : E) :
    (Delete u (some e) db key rev).err = some e ∧
    (Create (some t) (some e) db key v ttl).err = some (t e) ∧
    (Update (some t) (some e) db key v ttl preRev).err = some (t e) :=
  ⟨rfl, rfl, rfl⟩

/-- The four-step scenario of the spec: create foo, update it, delete it,
re-create it. -/
def rcDb1 : DB := (Create (E := Unit) none none [] ("foo".toList) [49] 0).db

/-- Table after the update of foo at expected revision 1. -/
def rcDb2 : DB := (Update (E := Unit) none none rcDb1 ("foo".toList) [50] 0 1).db

/-- The delete of foo at expected revision 2. -/
def rcDelete : OpResult Unit := Delete (E := Unit) none none rcDb2 ("foo".toList) 2

/-- The re-create of foo after the delete. -/
def rcCreate : OpResult Unit :=
  Create (E := Unit) none none rcDelete.db ("foo".toList) [120] 0

/-- C7 counterexample: re-creating foo after a delete yields the row with
id 4, created = 1 and stored create_revision = 0; the claim asserts
create_revision = 4, which fails since 0 is not 4. -/
theorem recreate_create_revision_counterexample :
    rcDelete.ok = true ∧ rcCreate.ok = true ∧ rcCreate.rev = 4 ∧
    (rcCreate.db.getLast?).map (fun r => (r.created, r.create_revision, r.id)) =
      some (true, 0, 4) ∧ (0 : Int) ≠ 4 := by
  decide

/-- C7 amended: after a successful Delete of a key followed by a
successful Create of the same key, the new row has created = 1 and its
stored create_revision field is 0: the creating row is its own life-cycle
root and the field does not hold the row's own id. -/
theorem recreate_create_revision_amended {E : Type} (t : Option (E → E)) (db : DB)
    (key : Str) (rev : Int) (v : Bytes) (ttl : Int)
    (hdel : (Delete t none db key rev).ok = true)
    (hcr : (Create t none (Delete t none db key rev).db key v ttl).ok = true) :
    ((Create t none (Delete t none db key rev).db key v ttl).db.getLast?).map
      (fun r => (r.created, r.create_revision)) = some (true, 0) ∧
    (Create t none (Delete t none db key rev).db key v ttl).db.length =
      (Delete t none db key rev).db.length + 1 := by
  cases hc : createRow (Delete t none db key rev).db key v ttl with
  | none => rw [Create] at hcr; rw [hc] at hcr; cases hcr
  | some r =>
    have hr : r.created = true ∧ r.create_revision = 0 := by
      unfold createRow at hc
      cases hl : latestRow (Delete t none db key rev).db key with
      | none =>
        simp only [hl] at hc
        injection hc with hc2
        rw [← hc2]
        exact ⟨rfl, rfl⟩
      | some prev =>
        simp only [hl] at hc
        by_cases hd : prev.deleted = true
        · rw [if_pos hd] at hc
          injection hc with hc2
          rw [← hc2]
          exact ⟨rfl, rfl⟩
        · rw [if_neg hd] at hc
          simp at hc
    rw [Create]
    rw [hc]
    simp [List.getLast?_concat, hr.1, hr.2]

/-- C7 amended witness: the concrete delete then re-create of foo. -/
theorem recreate_create_revision_amended_witness :
    (Delete (E := Unit) none none rcDb2 ("foo".toList) 2).ok = true ∧
    ((Create (E := Unit) none none (Delete (E := Unit) none none rcDb2 ("foo".toList) 2).db
        ("foo".toList) [120] 0).db.getLast?).map
      (fun r => (r.created, r.create_revision)) = some (true, 0) :=
  ⟨by decide,
   (recreate_create_revision_amended (E := Unit) none rcDb2 ("foo".toList) 2 [120] 0
     (by decide) (by decide)).1⟩

/-! The Open startup loop. -/

/-- Outcome of the Open call: a working handle, the context-cancellation
error return, or the nil-handle dereference inside
configureConnectionPooling. -/
inductive OpenOutcome (E : Type) where
  | success : OpenOutcome E
  | ctxCancelled (e : E) : OpenOutcome E
  | nilDereference : OpenOutcome E
deriving DecidableEq

/-- The open-and-ping loop of Open: at most 300 attempts; a nil error
breaks out with the handle; on failure the context is consulted and, when
done, its error is returned; when the loop exhausts, control falls through
to configureConnectionPooling with a nil handle, whose first method call
dereferences it. -/
def openLoop {E : Type} (attempts : Nat → Option E) (ctxDone : Nat → Bool)
    (ctxErr : E) : Nat → Nat → OpenOutcome E
  | _, 0 => OpenOutcome.nilDereference
  | i, f + 1 =>
    match attempts i with
    | none => OpenOutcome.success
    | some _ =>
      if ctxDone i then OpenOutcome.ctxCancelled ctxErr
      else openLoop attempts ctxDone ctxErr (i + 1) f

/-- Generic.Open: 300 open-and-ping attempts, then unconditional
connection-pool configuration on whatever handle the loop produced. -/
def Open {E : Type} (attempts : Nat → Option E) (ctxDone : Nat → Bool)
    (ctxErr : E) : OpenOutcome E :=
  openLoop attempts ctxDone ctxErr 0 300

/-- When every attempt in sight fails and the context never cancels, the
loop runs out and ends in the nil dereference. -/
theorem openLoop_exhausts {E : Type} (attempts : Nat → Option E) (ctxDone : Nat → Bool)
    (ctxErr : E) :
    ∀ f i, (∀ j, i ≤ j → j < i + f → attempts j ≠ none) → (∀ j, ctxDone j = false) →
      openLoop attempts ctxDone ctxErr i f = OpenOutcome.nilDereference := by
  intro f
  induction f with
  | zero => intro i _ _; rfl
  | succ f ih =>
    intro i hfail hctx
    cases ha : attempts i with
    | none => exact absurd ha (hfail i (le_refl i) (by omega))
    | some e =>
      simp only [openLoop, ha, hctx i, if_false]
      exact ih (i + 1) (fun j hj1 hj2 => hfail j (by omega) (by omega)) hctx

/-- C9: when all 300 open-and-ping attempts fail and the context is never
cancelled, Open does not return the accumulated error: control reaches
configureConnectionPooling with a nil handle, which is dereferenced; the
model's only clean error return is the context-cancellation branch. -/
theorem open_nil_dereference_on_persistent_failure {E : Type}
    (attempts : Nat → Option E) (ctxDone : Nat → Bool) (ctxErr : E)
    (hfail : ∀ i, i < 300 → attempts i ≠ none)
    (hctx : ∀ i, ctxDone i = false) :
    Open attempts ctxDone ctxErr = OpenOutcome.nilDereference :=
  openLoop_exhausts attempts ctxDone ctxErr 300 0
    (fun j _ hj2 => hfail j (by omega)) hctx

/-- Oracle for the Open witness: every attempt fails. -/
def woAttempts : Nat → Option Nat := fun _ => some 0

/-- Oracle for the Open witness: the context is never done. -/
def woCtxDone : Nat → Bool := fun _ => false

/-- C9 witness: with every attempt failing and no cancellation, Open ends
in the nil dereference. -/
theorem open_nil_dereference_witness :
    Open woAttempts woCtxDone 7 = OpenOutcome.nilDereference :=
  open_nil_dereference_on_persistent_failure woAttempts woCtxDone 7
    (fun i _ => by simp [woAttempts]) (fun i => rfl)

/-! The compaction pass (tryCompact and Compact). -/

/-- First DELETE of tryCompact: remove every row whose id appears as the
prev_revision of some window row that is not the marker, has created = 0
and a nonzero prev_revision (the IN subquery is evaluated against the
table before the deletion). -/
def compactStepA (db : DB) (lo hi : Int) : DB :=
  let delIds := (db.filter (fun w => !(w.name == compactRevKey) && !w.created &&
      !(w.prev_revision == 0) && decide (lo < w.id) && decide (w.id ≤ hi))).map
      (fun w => w.prev_revision)
  db.filter (fun r => !(delIds.contains r.id))

/-- Second DELETE of tryCompact: remove every tombstone in the window. -/
def compactStepB (db : DB) (lo hi : Int) : DB :=
  db.filter (fun r => !(r.deleted && decide (lo < r.id) && decide (r.id ≤ hi)))

/-- UpdateCompactSQL: set the marker row's prev_revision to the maximum of
its current value and the compaction target. -/
def compactStepC (db : DB) (hi : Int) : DB :=
  db.map (fun r =>
    if r.name == compactRevKey then { r with prev_revision := max r.prev_revision hi }
    else r)

/-- The three statements of one committed compaction transaction, in
source order. -/
def compactApply (db : DB) (lo hi : Int) : DB :=
  compactStepC (compactStepB (compactStepA db lo hi) lo hi) hi

/-- Failure oracle for one compaction transaction: a fault at BeginTx, at
either DELETE, at the marker UPDATE, or at Commit. -/
structure TxFaults (E : Type) where
  onBegin : Option E
  onDeleteRefs : Option E
  onDeleteTombs : Option E
  onUpdateMarker : Option E
  onCommit : Option E
deriving DecidableEq

/-- A transaction in which every step succeeds. -/
def noTxFault {E : Type} : TxFaults E := ⟨none, none, none, none, none⟩

/-- A transaction whose BeginTx fails with e. -/
def beginTxFault {E : Type} (e : E) : TxFaults E := ⟨some e, none, none, none, none⟩

/-- Generic.tryCompact: BeginTx, the two DELETEs, the marker UPDATE and
Commit; any failing step returns its error with the table unchanged (the
deferred Rollback), and only Commit publishes all three mutations. -/
def tryCompact {E : Type} (f : TxFaults E) (db : DB) (lo hi : Int) : Option E × DB :=
  match f.onBegin with
  | some e => (some e, db)
  | none =>
    match f.onDeleteRefs with
    | some e => (some e, db)
    | none =>
      match f.onDeleteTombs with
      | some e => (some e, db)
      | none =>
        match f.onUpdateMarker with
        | some e => (some e, db)
        | none =>
          match f.onCommit with
          | some e => (some e, db)
          | none => (none, compactApply db lo hi)

/-- Membership in the list of superseded ids equals the existence of a
referencing window row. -/
theorem contains_map_filter_prevRev (l : List Row) (p : Row → Bool) (x : Int) :
    ((l.filter p).map (fun w => w.prev_revision)).contains x =
      l.any (fun w => p w && (x == w.prev_revision)) := by
  induction l with
  | nil => rfl
  | cons a tl ih =>
    cases hp : p a
    · rw [List.filter_cons_of_neg (by simp [hp]), List.any_cons, hp,
        Bool.false_and, Bool.false_or]
      exact ih
    · rw [List.filter_cons_of_pos (by simp [hp]), List.map_cons, List.contains_cons,
        List.any_cons, hp, Bool.true_and, ih]

/-- Two successive filters collapse into the conjunction, first predicate
first. -/
theorem filter_filter_and (l : List Row) (p q : Row → Bool) :
    (l.filter p).filter q = l.filter (fun r => p r && q r) := by
  induction l with
  | nil => rfl
  | cons a tl ih =>
    cases hp : p a
    · simp [List.filter_cons, hp, ih]
    · cases hq : q a <;> simp [List.filter_cons, hp, hq, ih]

/-- A successful transaction publishes exactly the three mutations. -/
theorem tryCompact_success {E : Type} (f : TxFaults E) (db : DB) (lo hi : Int)
    (h : (tryCompact f db lo hi).1 = none) :
    (tryCompact f db lo hi).2 = compactApply db lo hi := by
  obtain ⟨fb, fr, ftb, fm, fc⟩ := f
  cases fb <;> cases fr <;> cases ftb <;> cases fm <;> cases fc <;>
    first
      | rfl
      | simp [tryCompact] at h

/-- A failing transaction leaves the table unchanged. -/
theorem tryCompact_rollback {E : Type} (f : TxFaults E) (db : DB) (lo hi : Int)
    (h : (tryCompact f db lo hi).1 ≠ none) :
    (tryCompact f db lo hi).2 = db := by
  obtain ⟨fb, fr, ftb, fm, fc⟩ := f
  cases fb <;> cases fr <;> cases ftb <;> cases fm <;> cases fc <;>
    first
      | rfl
      | exact absurd rfl h

/-- C3: one compaction pass over the window (lo, hi] performs, atomically,
exactly these mutations on commit: it drops every row whose id appears as
the prev_revision of some window row having a name other than the marker,
created = 0 and prev_revision not 0, drops every tombstone in the window,
and raises each marker row's prev_revision to at least hi; on error none
of the mutations take effect. -/
theorem compaction_pass_atomic_mutations {E : Type} (f : TxFaults E) (db : DB)
    (lo hi : Int) :
    ((tryCompact f db lo hi).1 = none →
      (tryCompact f db lo hi).2 =
        (db.filter (fun r =>
          !(db.any (fun w => !(w.name == compactRevKey) && !w.created &&
              !(w.prev_revision == 0) && decide (lo < w.id) && decide (w.id ≤ hi) &&
              (r.id == w.prev_revision))) &&
          !(r.deleted && decide (lo < r.id) && decide (r.id ≤ hi)))).map
          (fun r =>
            if r.name == compactRevKey
            then { r with prev_revision := max r.prev_revision hi }
            else r)) ∧
    ((tryCompact f db lo hi).1 ≠ none → (tryCompact f db lo hi).2 = db) := by
  constructor
  · intro h
    rw [tryCompact_success f db lo hi h]
    simp only [compactApply, compactStepA, compactStepB, compactStepC]
    rw [filter_filter_and]
    refine congrArg (fun l => List.map _ l) ?_
    refine List.filter_congr ?_
    intro r _
    rw [contains_map_filter_prevRev]
  · exact tryCompact_rollback f db lo hi

/-- Concrete table for the compaction witness: the marker, the creation of
foo at id 2, and its update at id 3. -/
def cDb : DB :=
  [⟨1, compactRevKey, false, false, 0, 0, 0, none, none⟩,
   ⟨2, "foo".toList, true, false, 0, 0, 0, some [49], none⟩,
   ⟨3, "foo".toList, false, false, 2, 2, 0, some [50], some [49]⟩]

/-- C3 witness: the fault-free pass over (0, 3] deletes the superseded row
with id 2 and advances the marker to 3. -/
theorem compaction_pass_atomic_mutations_witness :
    (tryCompact (noTxFault : TxFaults Nat) cDb 0 3).1 = none ∧
    (tryCompact (noTxFault : TxFaults Nat) cDb 0 3).2 =
      [⟨1, compactRevKey, false, false, 0, 3, 0, none, none⟩,
       ⟨3, "foo".toList, false, false, 2, 2, 0, some [50], some [49]⟩] := by
  refine ⟨rfl, ?_⟩
  have h := (compaction_pass_atomic_mutations (noTxFault : TxFaults Nat) cDb 0 3).1 rfl
  rw [h]
  decide

/-! Generic.Compact: target clamping, the skip case and the retry loop. -/

/-- maxRetries from generic.go. -/
def maxRetries : Nat := 500

/-- The break condition of the retry loops: retry only when a predicate is
installed and classifies the error as retryable. -/
def retryB {E : Type} (retry : Option (E → Bool)) (e : E) : Bool :=
  match retry with
  | none => false
  | some p => p e

/-- The retry loop of Compact: attempt the transaction, break on success
or on a non-retryable error, else try again; fuel counts the remaining
retries, and the third component counts the attempts made. -/
def compactLoop {E : Type} (retry : Option (E → Bool)) (faults : Nat → TxFaults E)
    (lo hi : Int) (db : DB) : Nat → Nat → Option E × DB × Nat
  | idx, 0 =>
    (match tryCompact (faults idx) db lo hi with
     | (none, db2) => (none, db2, idx + 1)
     | (some e, _) => (some e, db, idx + 1))
  | idx, f + 1 =>
    (match tryCompact (faults idx) db lo hi with
     | (none, db2) => (none, db2, idx + 1)
     | (some e, _) =>
       if retryB retry e then compactLoop retry faults lo hi db (idx + 1) f
       else (some e, db, idx + 1))

/-- Unfolding of the loop with no fuel left. -/
theorem compactLoop_zero {E : Type} (retry : Option (E → Bool))
    (faults : Nat → TxFaults E) (lo hi : Int) (db : DB) (idx : Nat) :
    compactLoop retry faults lo hi db idx 0 =
      (match tryCompact (faults idx) db lo hi with
       | (none, db2) => (none, db2, idx + 1)
       | (some e, _) => (some e, db, idx + 1)) := rfl

/-- Unfolding of the loop with fuel remaining. -/
theorem compactLoop_succ {E : Type} (retry : Option (E → Bool))
    (faults : Nat → TxFaults E) (lo hi : Int) (db : DB) (idx f : Nat) :
    compactLoop retry faults lo hi db idx (f + 1) =
      (match tryCompact (faults idx) db lo hi with
       | (none, db2) => (none, db2, idx + 1)
       | (some e, _) =>
         if retryB retry e then compactLoop retry faults lo hi db (idx + 1) f
         else (some e, db, idx + 1)) := rfl

/-- A loop whose first transaction succeeds stops after that single
attempt. -/
theorem compactLoop_first_ok {E : Type} (retry : Option (E → Bool))
    (faults : Nat → TxFaults E) (lo hi : Int) (db db2 : DB) (idx fuel : Nat)
    (h : tryCompact (faults idx) db lo hi = (none, db2)) :
    compactLoop retry faults lo hi db idx fuel = (none, db2, idx + 1) := by
  cases fuel with
  | zero => rw [compactLoop_zero, h]
  | succ f => rw [compactLoop_succ, h]

/-- Generic.Compact: read (compact, current), return nil when the
watermark is already at or past the requested revision, clamp the target
to the current revision, and run the transaction under the retry loop. -/
def Compact {E : Type} (retry : Option (E → Bool)) (fGet : Option E)
    (faults : Nat → TxFaults E) (db : DB) (revision : Int) : Option E × DB × Nat :=
  match fGet with
  | some e => (some e, db, 0)
  | none =>
    if compactRevOf db ≥ revision then (none, db, 0)
    else
      compactLoop retry faults (compactRevOf db)
        (if revision > currentRevOf db then currentRevOf db else revision)
        db 0 (maxRetries - 1)

/-- Every member's id is bounded by the MAX(id) aggregate. -/
theorem maxIdOpt_mem_le (l : List Row) (r : Row) (h : r ∈ l) :
    ∃ m, maxIdOpt l = some m ∧ r.id ≤ m := by
  induction l with
  | nil => cases h
  | cons a tl ih =>
    cases h with
    | head =>
      cases hm : maxIdOpt tl with
      | none => exact ⟨r.id, by simp [maxIdOpt, hm], le_refl r.id⟩
      | some m => exact ⟨max r.id m, by simp [maxIdOpt, hm], le_max_left r.id m⟩
    | tail _ htl =>
      obtain ⟨m, hm, hle⟩ := ih htl
      exact ⟨max a.id m, by simp [maxIdOpt, hm], le_trans hle (le_max_right a.id m)⟩

/-- Every row's id is at most the current revision. -/
theorem id_le_currentRev (db : DB) (r : Row) (h : r ∈ db) :
    r.id ≤ currentRevOf db := by
  obtain ⟨m, hm, hle⟩ := maxIdOpt_mem_le db r h
  unfold currentRevOf
  rw [hm]
  exact hle

/-- A list of length at most one that has a member is that singleton. -/
theorem length_le_one_eq_singleton {l : List Row} {r : Row}
    (h : l.length ≤ 1) (hr : r ∈ l) : l = [r] := by
  cases l with
  | nil => cases hr
  | cons a tl =>
    have htl : tl = [] := by
      cases tl with
      | nil => rfl
      | cons b tb => simp at h
    subst htl
    cases hr with
    | head => rfl
    | tail _ hm => cases hm

/-- Mapping a function that fixes every member is the identity. -/
theorem map_id_of_mem {l : List Row} {f : Row → Row} (h : ∀ r ∈ l, f r = r) :
    l.map f = l := by
  induction l with
  | nil => rfl
  | cons a tl ih =>
    rw [List.map_cons, h a (List.mem_cons_self a tl),
      ih (fun r hr => h r (List.mem_cons_of_mem a hr))]

/-- A fault-free transaction over an empty window whose target does not
exceed any marker watermark leaves the table unchanged. -/
theorem tryCompact_identity {E : Type} (db : DB) (lo hi : Int)
    (hwin : ∀ r ∈ db, ¬(lo < r.id ∧ r.id ≤ hi))
    (hmark : ∀ r ∈ db, r.name = compactRevKey → hi ≤ r.prev_revision) :
    tryCompact (noTxFault : TxFaults E) db lo hi = (none, db) := by
  unfold tryCompact noTxFault
  simp only
  refine congrArg (fun d => ((none : Option E), d)) ?_
  unfold compactApply
  have hA : compactStepA db lo hi = db := by
    unfold compactStepA
    have hids : (db.filter (fun w => !(w.name == compactRevKey) && !w.created &&
        !(w.prev_revision == 0) && decide (lo < w.id) && decide (w.id ≤ hi))) = [] := by
      rw [List.filter_eq_nil_iff]
      intro w hw
      have hw2 := hwin w hw
      simp only [Bool.and_eq_true, decide_eq_true_eq]
      intro hcond
      exact hw2 ⟨by tauto, by tauto⟩
    rw [hids]
    simp only [List.map_nil]
    exact List.filter_eq_self.mpr (fun a _ => rfl)
  have hB : compactStepB db lo hi = db := by
    unfold compactStepB
    refine List.filter_eq_self.mpr ?_
    intro a ha
    have hw2 := hwin a ha
    by_cases h1 : lo < a.id
    · have h2 : ¬(a.id ≤ hi) := fun hle => hw2 ⟨h1, hle⟩
      simp [h2]
    · simp [h1]
  have hC : compactStepC db hi = db := by
    unfold compactStepC
    refine map_id_of_mem ?_
    intro r hr
    by_cases hn : r.name = compactRevKey
    · have hle : hi ≤ r.prev_revision := hmark r hr hn
      have hbeq : (r.name == compactRevKey) = true := by simp [hn]
      rw [if_pos hbeq, max_eq_left hle]
    · have hbeq : ¬((r.name == compactRevKey) = true) := by simp [hn]
      rw [if_neg hbeq]
  rw [hA, hB, hC]

/-- With every transaction failing at BeginTx on a retryable error, the
loop spends all its fuel and returns that error with the table
unchanged. -/
theorem compactLoop_exhausts {E : Type} (retry : Option (E → Bool))
    (faults : Nat → TxFaults E) (lo hi : Int) (db : DB) (e : E)
    (hb : ∀ i, faults i = beginTxFault e) (hr : retryB retry e = true) :
    ∀ fuel idx, compactLoop retry faults lo hi db idx fuel =
      (some e, db, idx + fuel + 1) := by
  intro fuel
  induction fuel with
  | zero =>
    intro idx
    have htc : tryCompact (faults idx) db lo hi = (some e, db) := by
      rw [hb idx]; rfl
    rw [compactLoop_zero, htc]
  | succ f ih =>
    intro idx
    have htc : tryCompact (faults idx) db lo hi = (some e, db) := by
      rw [hb idx]; rfl
    rw [compactLoop_succ, htc]
    simp only [hr, if_true]
    rw [ih (idx + 1)]
    refine congrArg (fun n => ((some e : Option E), db, n)) ?_
    omega

/-- The clamped target expression of Compact equals the minimum. -/
theorem clamp_eq_min (revision cur : Int) :
    (if revision > cur then cur else revision) = min revision cur := by
  by_cases h : revision > cur
  · simp [h, min_def]
    omega
  · simp [h, min_def]
    omega

/-- Unfolding of Compact when the revision read succeeds. -/
theorem Compact_read_ok {E : Type} (retry : Option (E → Bool))
    (faults : Nat → TxFaults E) (db : DB) (revision : Int) :
    Compact retry none faults db revision =
      (if compactRevOf db ≥ revision then (none, db, 0)
       else compactLoop retry faults (compactRevOf db)
         (if revision > currentRevOf db then currentRevOf db else revision)
         db 0 (maxRetries - 1)) := rfl

/-- C4: Compact reads (compact, current); with target the minimum of the
requested and current revisions, a watermark at or past the target makes
the fault-free call return nil leaving every row unchanged; a watermark
below the target compacts the window (compact, target] in one committed
transaction; and a retryable failure is retried until the attempts reach
maxRetries, after which the error is returned. -/
theorem compact_clamp_skip_retry {E : Type} (retry : Option (E → Bool))
    (faults : Nat → TxFaults E) (db : DB) (revision : Int)
    (hm : (db.filter (fun r => r.name == compactRevKey)).length ≤ 1) :
    ((∀ i, faults i = noTxFault) → min revision (currentRevOf db) ≤ compactRevOf db →
      (Compact retry none faults db revision).1 = none ∧
      (Compact retry none faults db revision).2.1 = db) ∧
    ((∀ i, faults i = noTxFault) → compactRevOf db < min revision (currentRevOf db) →
      Compact retry none faults db revision =
        (none, compactApply db (compactRevOf db) (min revision (currentRevOf db)), 1)) ∧
    (∀ e, (∀ i, faults i = beginTxFault e) → retryB retry e = true →
      compactRevOf db < min revision (currentRevOf db) →
      Compact retry none faults db revision = (some e, db, maxRetries)) := by
  refine ⟨?_, ?_, ?_⟩
  · intro hnf hge
    rw [Compact_read_ok]
    by_cases hcr : compactRevOf db ≥ revision
    · rw [if_pos hcr]
      exact ⟨rfl, rfl⟩
    · rw [if_neg hcr]
      have hrevgt : revision > compactRevOf db := by omega
      have hcur : currentRevOf db ≤ compactRevOf db := by
        rcases le_or_lt revision (currentRevOf db) with hle | hlt
        · rw [min_eq_left hle] at hge; omega
        · rw [min_eq_right (le_of_lt hlt)] at hge; exact hge
      have hclamp : revision > currentRevOf db := by omega
      rw [if_pos hclamp]
      have hid : tryCompact (faults 0) db (compactRevOf db) (currentRevOf db) =
          (none, db) := by
        rw [hnf 0]
        refine tryCompact_identity db _ _ ?_ ?_
        · intro r hrm hcon
          have hle := id_le_currentRev db r hrm
          omega
        · intro r hrm hname
          have hmem : r ∈ db.filter (fun r => r.name == compactRevKey) := by
            rw [List.mem_filter]
            exact ⟨hrm, by simp [hname]⟩
          have hsing := length_le_one_eq_singleton hm hmem
          have hceq : compactRevOf db = r.prev_revision := by
            unfold compactRevOf
            rw [hsing]
            rfl
          omega
      rw [compactLoop_first_ok retry faults _ _ db db 0 (maxRetries - 1) hid]
      exact ⟨rfl, rfl⟩
  · intro hnf hlt
    have hcr : ¬(compactRevOf db ≥ revision) := by
      have hmle := min_le_left revision (currentRevOf db)
      omega
    have hid : tryCompact (faults 0) db (compactRevOf db)
        (min revision (currentRevOf db)) =
        (none, compactApply db (compactRevOf db) (min revision (currentRevOf db))) := by
      rw [hnf 0]
      rfl
    rw [Compact_read_ok, if_neg hcr, clamp_eq_min]
    rw [compactLoop_first_ok retry faults _ _ db _ 0 (maxRetries - 1) hid]
  · intro e hbf hrb hlt
    have hcr : ¬(compactRevOf db ≥ revision) := by
      have hmle := min_le_left revision (currentRevOf db)
      omega
    rw [Compact_read_ok, if_neg hcr, clamp_eq_min]
    rw [compactLoop_exhausts retry faults _ _ db e hbf hrb (maxRetries - 1) 0]
    refine congrArg (fun n => ((some e : Option E), db, n)) ?_
    decide

/-- Concrete table for the Compact witness. -/
def cDb4 : DB :=
  [⟨1, compactRevKey, false, false, 0, 0, 0, none, none⟩,
   ⟨2, "foo".toList, true, false, 0, 0, 0, some [49], none⟩,
   ⟨3, "foo".toList, false, false, 2, 2, 0, some [50], some [49]⟩]

/-- C4 witness: compacting to 3 with watermark 0 and current revision 3
commits one pass over (0, 3]. -/
theorem compact_clamp_skip_retry_witness :
    compactRevOf cDb4 < min 3 (currentRevOf cDb4) ∧
    Compact (E := Nat) none none (fun _ => noTxFault) cDb4 3 =
      (none, compactApply cDb4 0 3, 1) := by
  have h := (compact_clamp_skip_retry (E := Nat) none (fun _ => noTxFault) cDb4 3
    (by decide)).2.1 (fun i => rfl) (by decide)
  refine ⟨by decide, ?_⟩
  rw [h]
  decide

/-! The retry loops of Generic.query and Generic.execute. -/

/-- The shared retry loop body of query and execute: issue the statement,
break on success; on error consult the retryable predicate and either
re-issue immediately or break; the second component is the retryCount
reached, which on fuel exhaustion is one past the last attempt index. -/
def attemptLoop {E R : Type} (retry : Option (E → Bool)) (outcomes : Nat → Except E R) :
    Nat → Nat → Except E R × Nat
  | idx, 0 =>
    (match outcomes idx with
     | Except.ok r => (Except.ok r, idx)
     | Except.error e =>
       if retryB retry e then (Except.error e, idx + 1) else (Except.error e, idx))
  | idx, f + 1 =>
    (match outcomes idx with
     | Except.ok r => (Except.ok r, idx)
     | Except.error e =>
       if retryB retry e then attemptLoop retry outcomes (idx + 1) f
       else (Except.error e, idx))

/-- Unfolding of the attempt loop with no retries left. -/
theorem attemptLoop_zero {E R : Type} (retry : Option (E → Bool))
    (outcomes : Nat → Except E R) (idx : Nat) :
    attemptLoop retry outcomes idx 0 =
      (match outcomes idx with
       | Except.ok r => (Except.ok r, idx)
       | Except.error e =>
         if retryB retry e then (Except.error e, idx + 1) else (Except.error e, idx)) := rfl

/-- Unfolding of the attempt loop with retries remaining. -/
theorem attemptLoop_succ {E R : Type} (retry : Option (E → Bool))
    (outcomes : Nat → Except E R) (idx f : Nat) :
    attemptLoop retry outcomes idx (f + 1) =
      (match outcomes idx with
       | Except.ok r => (Except.ok r, idx)
       | Except.error e =>
         if retryB retry e then attemptLoop retry outcomes (idx + 1) f
         else (Except.error e, idx)) := rfl

/-- The final error is annotated with the retry count reached (the
fmt.Errorf wrapping in the deferred function). -/
def annotateResult {E R : Type} : Except E R × Nat → Except (Nat × E) R
  | (Except.ok r, _) => Except.ok r
  | (Except.error e, n) => Except.error (n, e)

/-- Generic.query: the bounded retry loop around QueryContext. -/
def queryOp {E R : Type} (retry : Option (E → Bool)) (outcomes : Nat → Except E R) :
    Except (Nat × E) R :=
  annotateResult (attemptLoop retry outcomes 0 (maxRetries - 1))

/-- Generic.execute: the same bounded retry loop around ExecContext; the
optional write lock does not change the sequential retry behaviour. -/
def executeOp {E R : Type} (_lockWrites : Bool) (retry : Option (E → Bool))
    (outcomes : Nat → Except E R) : Except (Nat × E) R :=
  annotateResult (attemptLoop retry outcomes 0 (maxRetries - 1))

/-- queryOp unfolding. -/
theorem queryOp_def {E R : Type} (retry : Option (E → Bool))
    (outcomes : Nat → Except E R) :
    queryOp retry outcomes =
      annotateResult (attemptLoop retry outcomes 0 (maxRetries - 1)) := rfl

/-- execute and query share the loop verbatim. -/
theorem executeOp_eq_queryOp {E R : Type} (b : Bool) (retry : Option (E → Bool))
    (outcomes : Nat → Except E R) :
    executeOp b retry outcomes = queryOp retry outcomes := rfl

/-- A success at attempt k, after k retryable failures, ends the loop with
that result and count k. -/
theorem attemptLoop_ok_after {E R : Type} (retry : Option (E → Bool))
    (outcomes : Nat → Except E R) :
    ∀ (k idx fuel : Nat) (r : R), k ≤ fuel →
      (∀ i, i < k → ∃ e, outcomes (idx + i) = Except.error e ∧ retryB retry e = true) →
      outcomes (idx + k) = Except.ok r →
      attemptLoop retry outcomes idx fuel = (Except.ok r, idx + k) := by
  intro k
  induction k with
  | zero =>
    intro idx fuel r _ _ hk
    simp only [Nat.add_zero] at hk ⊢
    cases fuel with
    | zero => rw [attemptLoop_zero, hk]
    | succ f => rw [attemptLoop_succ, hk]
  | succ k ih =>
    intro idx fuel r hkf hfail hk
    obtain ⟨e0, he0, hr0⟩ := hfail 0 (Nat.succ_pos k)
    simp only [Nat.add_zero] at he0
    cases fuel with
    | zero => omega
    | succ f =>
      rw [attemptLoop_succ, he0]
      simp only [hr0, if_true]
      have hshift : ∀ i, i < k →
          ∃ e, outcomes (idx + 1 + i) = Except.error e ∧ retryB retry e = true := by
        intro i hi
        obtain ⟨e, he, hre⟩ := hfail (i + 1) (by omega)
        refine ⟨e, ?_, hre⟩
        rw [show idx + 1 + i = idx + (i + 1) from by omega]
        exact he
      have hk2 : outcomes (idx + 1 + k) = Except.ok r := by
        rw [show idx + 1 + k = idx + (k + 1) from by omega]
        exact hk
      rw [ih (idx + 1) f r (by omega) hshift hk2]
      refine congrArg (fun n => ((Except.ok r : Except E R), n)) ?_
      omega

/-- A non-retryable failure at attempt k, after k retryable failures, ends
the loop at once with count k. -/
theorem attemptLoop_stop_nonretry {E R : Type} (retry : Option (E → Bool))
    (outcomes : Nat → Except E R) :
    ∀ (k idx fuel : Nat) (e : E), k ≤ fuel →
      (∀ i, i < k → ∃ ei, outcomes (idx + i) = Except.error ei ∧ retryB retry ei = true) →
      outcomes (idx + k) = Except.error e → retryB retry e = false →
      attemptLoop retry outcomes idx fuel = (Except.error e, idx + k) := by
  intro k
  induction k with
  | zero =>
    intro idx fuel e _ _ hk hre
    simp only [Nat.add_zero] at hk ⊢
    cases fuel with
    | zero => rw [attemptLoop_zero, hk]; simp [hre]
    | succ f => rw [attemptLoop_succ, hk]; simp [hre]
  | succ k ih =>
    intro idx fuel e hkf hfail hk hre
    obtain ⟨e0, he0, hr0⟩ := hfail 0 (Nat.succ_pos k)
    simp only [Nat.add_zero] at he0
    cases fuel with
    | zero => omega
    | succ f =>
      rw [attemptLoop_succ, he0]
      simp only [hr0, if_true]
      have hshift : ∀ i, i < k →
          ∃ ei, outcomes (idx + 1 + i) = Except.error ei ∧ retryB retry ei = true := by
        intro i hi
        obtain ⟨ei, he, hrei⟩ := hfail (i + 1) (by omega)
        refine ⟨ei, ?_, hrei⟩
        rw [show idx + 1 + i = idx + (i + 1) from by omega]
        exact he
      have hk2 : outcomes (idx + 1 + k) = Except.error e := by
        rw [show idx + 1 + k = idx + (k + 1) from by omega]
        exact hk
      rw [ih (idx + 1) f e (by omega) hshift hk2 hre]
      refine congrArg (fun n => ((Except.error e : Except E R), n)) ?_
      omega

/-- When every attempt in the fuel window fails retryably, the loop spends
all attempts and ends with the last error and count one past the last
attempt. -/
theorem attemptLoop_exhaust {E R : Type} (retry : Option (E → Bool))
    (outcomes : Nat → Except E R) :
    ∀ fuel idx,
      (∀ i, i ≤ fuel → ∃ e, outcomes (idx + i) = Except.error e ∧ retryB retry e = true) →
      ∃ e, outcomes (idx + fuel) = Except.error e ∧
        attemptLoop retry outcomes idx fuel = (Except.error e, idx + fuel + 1) := by
  intro fuel
  induction fuel with
  | zero =>
    intro idx hfail
    obtain ⟨e, he, hre⟩ := hfail 0 (le_refl 0)
    simp only [Nat.add_zero] at he ⊢
    refine ⟨e, he, ?_⟩
    rw [attemptLoop_zero, he]
    simp [hre]
  | succ f ih =>
    intro idx hfail
    obtain ⟨e0, he0, hr0⟩ := hfail 0 (Nat.zero_le _)
    simp only [Nat.add_zero] at he0
    obtain ⟨e, he, hloop⟩ := ih (idx + 1) (fun i hi => by
      obtain ⟨ei, hei, hrei⟩ := hfail (i + 1) (by omega)
      exact ⟨ei, by rw [show idx + 1 + i = idx + (i + 1) from by omega]; exact hei, hrei⟩)
    refine ⟨e, ?_, ?_⟩
    · rw [show idx + (f + 1) = idx + 1 + f from by omega]
      exact he
    · rw [attemptLoop_succ, he0]
      simp only [hr0, if_true]
      rw [hloop]
      refine congrArg (fun n => ((Except.error e : Except E R), n)) ?_
      omega

/-- The retry count reached never exceeds one past the fuel. -/
theorem attemptLoop_count_le {E R : Type} (retry : Option (E → Bool))
    (outcomes : Nat → Except E R) :
    ∀ fuel idx, (attemptLoop retry outcomes idx fuel).2 ≤ idx + fuel + 1 := by
  intro fuel
  induction fuel with
  | zero =>
    intro idx
    rw [attemptLoop_zero]
    cases ho : outcomes idx with
    | ok r => simp [ho]
    | error e =>
      by_cases hr : retryB retry e
      · simp [ho, hr]
      · simp [ho, hr]
  | succ f ih =>
    intro idx
    rw [attemptLoop_succ]
    cases ho : outcomes idx with
    | ok r => simp [ho]; omega
    | error e =>
      by_cases hr : retryB retry e
      · simp only [ho, hr, if_true]
        have hb := ih (idx + 1)
        omega
      · simp [ho, hr]; omega

/-- C5: for query and for execute, the retryable predicate governs the
loop: the returned annotation never exceeds maxRetries attempts; a
non-retryable error at attempt k ends the loop at once with the error
annotated k; a success at attempt k returns the result; and when all
maxRetries attempts fail retryably, the last error is returned annotated
with maxRetries. -/
theorem query_execute_retry_spec {E R : Type} (retry : Option (E → Bool))
    (outcomes : Nat → Except E R) :
    (∀ n e, queryOp retry outcomes = Except.error (n, e) → n ≤ maxRetries) ∧
    (∀ k e, k < maxRetries →
      (∀ i, i < k → ∃ ei, outcomes i = Except.error ei ∧ retryB retry ei = true) →
      outcomes k = Except.error e → retryB retry e = false →
      queryOp retry outcomes = Except.error (k, e) ∧
      executeOp true retry outcomes = Except.error (k, e)) ∧
    (∀ k r, k < maxRetries →
      (∀ i, i < k → ∃ ei, outcomes i = Except.error ei ∧ retryB retry ei = true) →
      outcomes k = Except.ok r →
      queryOp retry outcomes = Except.ok r ∧
      executeOp true retry outcomes = Except.ok r) ∧
    ((∀ i, i < maxRetries → ∃ ei, outcomes i = Except.error ei ∧ retryB retry ei = true) →
      ∃ e, outcomes (maxRetries - 1) = Except.error e ∧
        queryOp retry outcomes = Except.error (maxRetries, e) ∧
        executeOp true retry outcomes = Except.error (maxRetries, e)) := by
  refine ⟨?_, ?_, ?_, ?_⟩
  · intro n e h
    rcases h0 : attemptLoop retry outcomes 0 (maxRetries - 1) with ⟨res, m⟩
    rw [queryOp_def, h0] at h
    cases res with
    | ok r => exact absurd h (by simp [annotateResult])
    | error e2 =>
      simp only [annotateResult] at h
      injection h with h2
      injection h2 with hmn hee
      have hb := attemptLoop_count_le retry outcomes (maxRetries - 1) 0
      rw [h0] at hb
      unfold maxRetries at hb ⊢
      omega
  · intro k e hkm hfail hk hre
    have hfail2 : ∀ i, i < k →
        ∃ ei, outcomes (0 + i) = Except.error ei ∧ retryB retry ei = true := by
      intro i hi
      rw [Nat.zero_add]
      exact hfail i hi
    have hk2 : outcomes (0 + k) = Except.error e := by
      rw [Nat.zero_add]; exact hk
    have hloop := attemptLoop_stop_nonretry retry outcomes k 0 (maxRetries - 1) e
      (by unfold maxRetries at hkm ⊢; omega) hfail2 hk2 hre
    constructor
    · rw [queryOp_def, hloop]
      simp [annotateResult]
    · rw [executeOp_eq_queryOp, queryOp_def, hloop]
      simp [annotateResult]
  · intro k r hkm hfail hk
    have hfail2 : ∀ i, i < k →
        ∃ ei, outcomes (0 + i) = Except.error ei ∧ retryB retry ei = true := by
      intro i hi
      rw [Nat.zero_add]
      exact hfail i hi
    have hk2 : outcomes (0 + k) = Except.ok r := by
      rw [Nat.zero_add]; exact hk
    have hloop := attemptLoop_ok_after retry outcomes k 0 (maxRetries - 1) r
      (by unfold maxRetries at hkm ⊢; omega) hfail2 hk2
    constructor
    · rw [queryOp_def, hloop]
      simp [annotateResult]
    · rw [executeOp_eq_queryOp, queryOp_def, hloop]
      simp [annotateResult]
  · intro hfail
    have hfail2 : ∀ i, i ≤ maxRetries - 1 →
        ∃ ei, outcomes (0 + i) = Except.error ei ∧ retryB retry ei = true := by
      intro i hi
      rw [Nat.zero_add]
      exact hfail i (by unfold maxRetries at hi ⊢; omega)
    obtain ⟨e, he, hloop⟩ := attemptLoop_exhaust retry outcomes (maxRetries - 1) 0 hfail2
    rw [Nat.zero_add] at he
    have harith : 0 + (maxRetries - 1) + 1 = maxRetries := by
      unfold maxRetries; omega
    refine ⟨e, he, ?_, ?_⟩
    · rw [queryOp_def, hloop, harith]
      simp [annotateResult]
    · rw [executeOp_eq_queryOp, queryOp_def, hloop, harith]
      simp [annotateResult]

/-- Outcome oracle for the retry witness: the first attempt succeeds. -/
def wOutcomes : Nat → Except Nat Nat := fun _ => Except.ok 42

/-- Retry predicate for the retry witness. -/
def wRetry : Option (Nat → Bool) := some (fun _ => true)

/-- C5 witness: an immediately successful statement is returned by both
query and execute. -/
theorem query_execute_retry_spec_witness :
    queryOp wRetry wOutcomes = Except.ok 42 ∧
    executeOp true wRetry wOutcomes = Except.ok 42 :=
  (query_execute_retry_spec wRetry wOutcomes).2.2.1 0 42 (by decide)
    (fun i hi => absurd hi (Nat.not_lt_zero i)) rfl

end KineSpec
